import Mathlib

/-!
# Verification of the CET4 exam-paper scraper (`progaomme.py`)

A shallow embedding of the extraction logic of the scraper:

* `process_fill_blank` models `_process_fill_blank`: a regex substitution
  replacing numbered `<span …><input …></span>` patterns by `N._ `, followed by
  tag stripping (BeautifulSoup `get_text()`) and `strip()`.
* `extract_paragraph_container` models `_extract_paragraph_container`.
* `extract_module` models `_extract_module`.
* `generate_url` models `_generate_url`.
* `crawl_single_paper` models the orchestrator, with external effects
  (browser launch, click, container location) supplied by an oracle
  environment and recorded as a trace of actions.

Strings are processed as `List Char`; recursions use explicit fuel where the
callee consumes a non-constant amount of input, so every definition evaluates
by kernel reduction.
-/

/-- Whitespace test used to model Python's `str.strip()`. -/
def ws (c : Char) : Bool := c.isWhitespace

/-- Model of Python's `str.strip()` on a character list: remove leading and
trailing whitespace. -/
def trimChars (l : List Char) : List Char :=
  ((l.dropWhile ws).reverse.dropWhile ws).reverse

/-- Model of Python's `str.strip()` on strings. -/
def stripStr (s : String) : String :=
  String.mk (trimChars s.data)

/-- Tag stripper modelling `BeautifulSoup(html).get_text()` on markup: characters
between `<` and `>` are removed, everything else is kept.  The `Bool` state is
`true` while inside a tag. -/
def stripTagsAux : Bool → List Char → List Char
  | _, [] => []
  | false, c :: cs => if c = '<' then stripTagsAux true cs else c :: stripTagsAux false cs
  | true, c :: cs => if c = '>' then stripTagsAux false cs else stripTagsAux true cs

/-- Remove markup tags from a character list (outside-tag initial state). -/
def stripTags (l : List Char) : List Char := stripTagsAux false l

/-- Match a literal character sequence at the head of the input, returning the
remainder on success. -/
def dropLit : List Char → List Char → Option (List Char)
  | [], l => some l
  | _ :: _, [] => none
  | c :: cs, x :: xs => if x = c then dropLit cs xs else none

/-- First literal chunk of the fill-blank regex
`<span class="mx-1 inline-block"><span class="text-gray-500">(\d+)\.</span><input[^>]+></span>`. -/
def lit1 : List Char := "<span class=\"mx-1 inline-block\"><span class=\"text-gray-500\">".data

/-- Second literal chunk of the fill-blank regex (between `(\d+)` and `[^>]+`). -/
def lit2 : List Char := ".</span><input".data

/-- Final literal chunk of the fill-blank regex (after `[^>]+`). -/
def lit4 : List Char := "></span>".data

/-- Attempt to match the fill-blank regex at the head of the input.  On success,
returns the captured digit group and the input remaining after the match.
`\d+` and `[^>]+` are matched by maximal munch, which agrees with the regex
engine because the characters that follow them in the pattern (`.` and `>`)
are excluded from the respective classes, so no backtracking can succeed
where maximal munch fails. -/
def matchPattern (l : List Char) : Option (List Char × List Char) :=
  (dropLit lit1 l).bind fun r1 =>
  let ds := r1.takeWhile Char.isDigit
  if ds.isEmpty then none else
  (dropLit lit2 (r1.dropWhile Char.isDigit)).bind fun r3 =>
  let ats := r3.takeWhile fun c => !(c = '>')
  if ats.isEmpty then none else
  (dropLit lit4 (r3.dropWhile fun c => !(c = '>'))).bind fun r6 =>
  some (ds, r6)

/-- One step of `re.sub`: scan left to right; at each position try the pattern;
on a match emit the replacement `\1._ ` and continue after the match, otherwise
keep the character.  Fuel-indexed so that the recursion is structural. -/
def subScanF : Nat → List Char → List Char
  | 0, l => l
  | _ + 1, [] => []
  | fuel + 1, c :: cs =>
    match matchPattern (c :: cs) with
    | some (ds, rest) => ds ++ '.' :: '_' :: ' ' :: subScanF fuel rest
    | none => c :: subScanF fuel cs

/-- The regex substitution of `_process_fill_blank`:
`re.sub(r'<span class="mx-1 inline-block"><span class="text-gray-500">(\d+)\.</span><input[^>]+></span>', r'\1._ ', html)`. -/
def subScan (l : List Char) : List Char := subScanF l.length l

/-- `_process_fill_blank(element)` on the element's `outerHTML`: regex
substitution, then `BeautifulSoup(...).get_text().strip()`. -/
def process_fill_blank (html : String) : String :=
  String.mk (trimChars (stripTags (subScan html.data)))

/-! ### Basic lemmas about the matcher -/

theorem dropLit_some {lit l r : List Char} :
    dropLit lit l = some r ↔ l = lit ++ r := by
  induction lit generalizing l with
  | nil => simp [dropLit]
  | cons c cs ih =>
    cases l with
    | nil => simp [dropLit]
    | cons x xs =>
      by_cases hx : x = c
      · subst hx
        simp [dropLit, ih]
      · simp [dropLit, hx, Ne.symm hx]

theorem dropLit_self (lit r : List Char) : dropLit lit (lit ++ r) = some r :=
  dropLit_some.mpr rfl

theorem takeWhile_chunk {p : Char → Bool} {xs : List Char} (y : Char) (ys : List Char)
    (hxs : ∀ c ∈ xs, p c = true) (hy : p y = false) :
    (xs ++ y :: ys).takeWhile p = xs ∧ (xs ++ y :: ys).dropWhile p = y :: ys := by
  induction xs with
  | nil => simp [List.takeWhile, List.dropWhile, hy]
  | cons a l ih =>
    have ha : p a = true := hxs a (by simp)
    have := ih (fun c hc => hxs c (by simp [hc]))
    simp [List.takeWhile, List.dropWhile, ha, this.1, this.2]

theorem lit2_head : lit2 = '.' :: "</span><input".data := by decide

theorem lit4_head : lit4 = '>' :: "</span>".data := by decide

/-- A pattern match at the head of the input succeeds exactly on a recognized
numbered-input occurrence: nonempty digits, nonempty attribute chunk without
`>`, framed by the three literal chunks; the capture is the digit group and the
remainder is what follows the occurrence. -/
theorem matchPattern_some_iff {l ds rest : List Char} :
    matchPattern l = some (ds, rest) ↔
      ∃ ats, l = lit1 ++ (ds ++ (lit2 ++ (ats ++ (lit4 ++ rest)))) ∧
        ds ≠ [] ∧ (∀ c ∈ ds, c.isDigit = true) ∧ ats ≠ [] ∧ '>' ∉ ats := by
  constructor
  · intro h
    simp only [matchPattern, Option.bind_eq_some] at h
    obtain ⟨r1, hr1, h⟩ := h
    by_cases he : (r1.takeWhile Char.isDigit).isEmpty
    · rw [if_pos he] at h; exact absurd h (by simp)
    · rw [if_neg he] at h
      simp only [Option.bind_eq_some] at h
      obtain ⟨r3, hr3, h⟩ := h
      by_cases he3 : (r3.takeWhile fun c => !(c = '>')).isEmpty
      · rw [if_pos he3] at h; exact absurd h (by simp)
      · rw [if_neg he3] at h
        simp only [Option.bind_eq_some, Option.some.injEq, Prod.mk.injEq] at h
        obtain ⟨r6, hr6, hds, hrr⟩ := h
        subst hds; subst hrr
        refine ⟨r3.takeWhile fun c => !(c = '>'), ?_, ?_, ?_, ?_, ?_⟩
        · have e1 : l = lit1 ++ r1 := dropLit_some.mp hr1
          have e2 : r1 = r1.takeWhile Char.isDigit ++ (lit2 ++ r3) := by
            conv_lhs => rw [← List.takeWhile_append_dropWhile (p := Char.isDigit) (l := r1)]
            rw [dropLit_some.mp hr3]
          have e3 : r3 = (r3.takeWhile fun c => !(c = '>')) ++ (lit4 ++ r6) := by
            conv_lhs => rw [← List.takeWhile_append_dropWhile (p := fun c => !(c = '>')) (l := r3)]
            rw [dropLit_some.mp hr6]
          rw [e3] at e2
          rw [e2] at e1
          rw [e1]
        · simpa using he
        · intro c hc; exact List.mem_takeWhile_imp hc
        · simpa using he3
        · intro hmem
          have := List.mem_takeWhile_imp hmem
          simp at this
  · rintro ⟨ats, hl, hds, hdig, hats, hgt⟩
    have hdot : Char.isDigit '.' = false := by decide
    have hgt' : ∀ c ∈ ats, (!(c = '>')) = true := by
      intro c hc
      simp only [Bool.not_eq_true', decide_eq_false_iff_not]
      intro hcg
      exact hgt (hcg ▸ hc)
    have htw := takeWhile_chunk (p := Char.isDigit) '.'
      ("</span><input".data ++ (ats ++ (lit4 ++ rest))) hdig hdot
    have htw2 := takeWhile_chunk (p := fun c => !(c = '>')) '>'
      ("</span>".data ++ rest) hgt' (by simp)
    subst hl
    simp only [matchPattern, dropLit_self, Option.some_bind]
    rw [show ds ++ (lit2 ++ (ats ++ (lit4 ++ rest))) =
        ds ++ '.' :: ("</span><input".data ++ (ats ++ (lit4 ++ rest))) by
      simp [lit2_head]]
    rw [htw.1, htw.2]
    simp only [List.isEmpty_eq_true, hds, if_false]
    rw [show '.' :: ("</span><input".data ++ (ats ++ (lit4 ++ rest))) =
        lit2 ++ (ats ++ (lit4 ++ rest)) by simp [lit2_head]]
    rw [dropLit_self]
    simp only [Option.some_bind]
    rw [show ats ++ (lit4 ++ rest) = ats ++ '>' :: ("</span>".data ++ rest) by
      simp [lit4_head]]
    rw [htw2.1, htw2.2]
    simp only [List.isEmpty_eq_true, hats, if_false]
    rw [show '>' :: ("</span>".data ++ rest) = lit4 ++ rest by simp [lit4_head]]
    rw [dropLit_self]
    simp

/-- A successful match consumes at least one character of the input. -/
theorem matchPattern_some_lt {l ds rest : List Char}
    (h : matchPattern l = some (ds, rest)) : rest.length < l.length := by
  obtain ⟨ats, hl, -, -, -, -⟩ := matchPattern_some_iff.mp h
  subst hl
  have h1 : 0 < lit1.length := by decide
  simp only [List.length_append]
  omega

/-- No match can begin at a character other than `<`. -/
theorem matchPattern_none_of_head {c : Char} (xs : List Char) (hc : c ≠ '<') :
    matchPattern (c :: xs) = none := by
  cases h : matchPattern (c :: xs) with
  | none => rfl
  | some p =>
    obtain ⟨ats, hl, -, -, -, -⟩ :=
      matchPattern_some_iff.mp (show matchPattern _ = some (p.1, p.2) by rw [h])
    rw [show lit1 = '<' ::
        "span class=\"mx-1 inline-block\"><span class=\"text-gray-500\">".data
      from by decide] at hl
    simp only [List.cons_append, List.cons.injEq] at hl
    exact absurd hl.1 hc

/-! ### Unfolding lemmas for the substitution scanner -/

/-- The scanner is insensitive to the exact amount of fuel, as long as it
covers the input length. -/
theorem subScanF_congr : ∀ (f1 f2 : Nat) (l : List Char),
    l.length ≤ f1 → l.length ≤ f2 → subScanF f1 l = subScanF f2 l := by
  intro f1
  induction f1 with
  | zero =>
    intro f2 l h1 _
    have : l = [] := List.eq_nil_of_length_eq_zero (Nat.le_zero.mp h1)
    subst this
    cases f2 <;> rfl
  | succ f ih =>
    intro f2 l h1 h2
    cases l with
    | nil => cases f2 <;> rfl
    | cons c cs =>
      cases f2 with
      | zero => simp at h2
      | succ g =>
        cases hm : matchPattern (c :: cs) with
        | some p =>
          obtain ⟨ds, rest⟩ := p
          have hlt := matchPattern_some_lt hm
          simp only [List.length_cons] at hlt h1 h2
          simp only [subScanF, hm]
          rw [ih g rest (by omega) (by omega)]
        | none =>
          simp only [List.length_cons] at h1 h2
          simp only [subScanF, hm]
          rw [ih g cs (by omega) (by omega)]

theorem subScan_nil : subScan [] = [] := rfl

theorem subScan_cons_none {c : Char} {cs : List Char}
    (h : matchPattern (c :: cs) = none) : subScan (c :: cs) = c :: subScan cs := by
  simp only [subScan, List.length_cons, subScanF, h]

theorem subScan_cons_some {c : Char} {cs ds rest : List Char}
    (h : matchPattern (c :: cs) = some (ds, rest)) :
    subScan (c :: cs) = ds ++ '.' :: '_' :: ' ' :: subScan rest := by
  have hlt := matchPattern_some_lt h
  simp only [List.length_cons] at hlt
  simp only [subScan, List.length_cons, subScanF, h]
  rw [subScanF_congr cs.length rest.length rest (by omega) le_rfl]

/-- Scanning a chunk without `<` passes it through unchanged. -/
theorem subScan_chunk {s : List Char} (r : List Char) (h : '<' ∉ s) :
    subScan (s ++ r) = s ++ subScan r := by
  induction s with
  | nil => simp
  | cons c cs ih =>
    have hc : c ≠ '<' := fun hc => h (hc ▸ List.mem_cons_self c cs)
    have hm := matchPattern_none_of_head (cs ++ r) hc
    rw [List.cons_append, subScan_cons_none hm, ih (fun hx => h (List.mem_cons_of_mem c hx))]
    simp

/-- No match can begin at the opening `<` of a simple tag `<nm>` whose name
contains no space and no `>`: the pattern's first literal requires `span `
right after the `<`. -/
theorem matchPattern_none_tag {nm : List Char} (rest : List Char)
    (hsp : ' ' ∉ nm) (_hgt : '>' ∉ nm) :
    matchPattern ('<' :: (nm ++ '>' :: rest)) = none := by
  cases h : matchPattern ('<' :: (nm ++ '>' :: rest)) with
  | none => rfl
  | some p =>
    exfalso
    obtain ⟨ats, hl, -, -, -, -⟩ :=
      matchPattern_some_iff.mp (show matchPattern _ = some (p.1, p.2) by rw [h])
    rw [show lit1 = '<' :: lit1.tail from by decide] at hl
    simp only [List.cons_append, List.cons.injEq, true_and] at hl
    have hlen : 5 ≤ lit1.tail.length := by decide
    by_cases h5 : 5 ≤ nm.length
    · have heq := congrArg (fun l => l[4]?) hl
      simp only at heq
      rw [List.getElem?_append_left (by omega),
        List.getElem?_append_left (by omega)] at heq
      rw [show lit1.tail[4]? = some ' ' from by decide] at heq
      exact hsp (List.getElem?_mem heq)
    · have heq := congrArg (fun l => l[nm.length]?) hl
      simp only at heq
      rw [List.getElem?_append_right (Nat.le_refl _),
        List.getElem?_append_left (by omega)] at heq
      simp only [Nat.sub_self, List.getElem?_cons_zero] at heq
      set k := nm.length with hk
      have hk4 : k ≤ 4 := by omega
      interval_cases k <;> exact absurd heq (by decide)

/-! ### Well-formed markup fragments -/

/-- One piece of a markup fragment: raw text, a simple tag `<nm>`, or a
recognized numbered-input occurrence (digit label `ds`, input attributes
`ats`). -/
inductive Item where
  | txt (s : List Char)
  | tagged (nm : List Char)
  | blank (ds ats : List Char)

/-- Markup rendering of one piece; a `blank` renders as
`<span class="mx-1 inline-block"><span class="text-gray-500">DS.</span><input ATS></span>`. -/
def renderItem : Item → List Char
  | .txt s => s
  | .tagged nm => '<' :: (nm ++ ['>'])
  | .blank ds ats => lit1 ++ (ds ++ (lit2 ++ (ats ++ lit4)))

/-- Concatenate a per-piece function over a fragment. -/
def concatFrag (f : Item → List Char) : List Item → List Char
  | [] => []
  | it :: l => f it ++ concatFrag f l

/-- Markup rendering of a fragment. -/
def renderFrag (frag : List Item) : List Char := concatFrag renderItem frag

/-- Well-formedness of one piece ("otherwise well-formed markup"): text holds
no markup characters and no underscore of its own; tag names hold no space,
`<` or `>`; a blank has a nonempty digit label and nonempty attributes free of
`>`. -/
def wfItem : Item → Prop
  | .txt s => '<' ∉ s ∧ '>' ∉ s ∧ '_' ∉ s
  | .tagged nm => ' ' ∉ nm ∧ '<' ∉ nm ∧ '>' ∉ nm
  | .blank ds ats => ds ≠ [] ∧ (∀ c ∈ ds, c.isDigit = true) ∧ ats ≠ [] ∧ '>' ∉ ats

/-- Effect of the regex substitution on one piece: blanks are replaced by
`DS._ `, everything else is untouched. -/
def subItem : Item → List Char
  | .txt s => s
  | .tagged nm => '<' :: (nm ++ ['>'])
  | .blank ds _ => ds ++ ['.', '_', ' ']

/-- The regex substitution acts piecewise on a well-formed fragment. -/
theorem subScan_renderFrag : ∀ (frag : List Item), (∀ it ∈ frag, wfItem it) →
    subScan (renderFrag frag) = concatFrag subItem frag := by
  intro frag
  induction frag with
  | nil => intro _; rfl
  | cons it l ih =>
    intro hwf
    have hit : wfItem it := hwf it (by simp)
    have hl : ∀ x ∈ l, wfItem x := fun x hx => hwf x (by simp [hx])
    cases it with
    | txt s =>
      obtain ⟨h1, -, -⟩ := hit
      show subScan (s ++ renderFrag l) = s ++ concatFrag subItem l
      rw [subScan_chunk _ h1, ih hl]
    | tagged nm =>
      obtain ⟨hsp, hlt, hgt⟩ := hit
      show subScan ('<' :: (nm ++ ['>']) ++ renderFrag l) =
        '<' :: (nm ++ ['>']) ++ concatFrag subItem l
      have hshape : '<' :: (nm ++ ['>']) ++ renderFrag l =
          '<' :: (nm ++ '>' :: renderFrag l) := by simp
      rw [hshape, subScan_cons_none (matchPattern_none_tag _ hsp hgt),
        subScan_chunk _ hlt,
        subScan_cons_none (matchPattern_none_of_head _ (by decide)),
        ih hl]
      simp
    | blank ds ats =>
      obtain ⟨hds, hdig, hats, hgt⟩ := hit
      show subScan (lit1 ++ (ds ++ (lit2 ++ (ats ++ lit4))) ++ renderFrag l) =
        (ds ++ ['.', '_', ' ']) ++ concatFrag subItem l
      have hshape : lit1 ++ (ds ++ (lit2 ++ (ats ++ lit4))) ++ renderFrag l =
          '<' :: (lit1.tail ++ (ds ++ (lit2 ++ (ats ++ (lit4 ++ renderFrag l))))) := by
        rw [show lit1 = '<' :: lit1.tail from by decide]
        simp
      have hm : matchPattern ('<' :: (lit1.tail ++ (ds ++ (lit2 ++ (ats ++ (lit4 ++ renderFrag l)))))) =
          some (ds, renderFrag l) := by
        rw [show ('<' : Char) :: (lit1.tail ++ (ds ++ (lit2 ++ (ats ++ (lit4 ++ renderFrag l))))) =
            lit1 ++ (ds ++ (lit2 ++ (ats ++ (lit4 ++ renderFrag l)))) from by
          rw [show lit1 = '<' :: lit1.tail from by decide]; simp]
        exact matchPattern_some_iff.mpr ⟨ats, rfl, hds, hdig, hats, hgt⟩
      rw [hshape, subScan_cons_some hm, ih hl]
      simp

/-! ### Tag stripping and trimming -/

/-- Effect of tag stripping after substitution on one well-formed piece. -/
def strippedItem : Item → List Char
  | .txt s => s
  | .tagged _ => []
  | .blank ds _ => ds ++ ['.', '_', ' ']

theorem stripTagsAux_chunk {s : List Char} (r : List Char) (h : '<' ∉ s) :
    stripTagsAux false (s ++ r) = s ++ stripTagsAux false r := by
  induction s with
  | nil => rfl
  | cons c cs ih =>
    have hc : ¬(c = '<') := fun hc => h (hc ▸ List.mem_cons_self c cs)
    simp only [List.cons_append, stripTagsAux, if_neg hc, List.append_eq]
    rw [ih (fun hx => h (List.mem_cons_of_mem c hx))]

theorem stripTagsAux_inside {nm : List Char} (r : List Char) (h : '>' ∉ nm) :
    stripTagsAux true (nm ++ '>' :: r) = stripTagsAux false r := by
  induction nm with
  | nil => simp [stripTagsAux]
  | cons c cs ih =>
    have hc : ¬(c = '>') := fun hc => h (hc ▸ List.mem_cons_self c cs)
    simp only [List.cons_append, stripTagsAux, if_neg hc]
    exact ih (fun hx => h (List.mem_cons_of_mem c hx))

theorem stripTagsAux_tag {nm : List Char} (r : List Char) (h : '>' ∉ nm) :
    stripTagsAux false ('<' :: (nm ++ '>' :: r)) = stripTagsAux false r := by
  simp only [stripTagsAux, if_pos rfl]
  exact stripTagsAux_inside r h

theorem digit_ne_lt {c : Char} (h : c.isDigit = true) : c ≠ '<' := by
  intro hc; rw [hc] at h; exact absurd h (by decide)

theorem digit_ne_gt {c : Char} (h : c.isDigit = true) : c ≠ '>' := by
  intro hc; rw [hc] at h; exact absurd h (by decide)

theorem digit_ne_us {c : Char} (h : c.isDigit = true) : c ≠ '_' := by
  intro hc; rw [hc] at h; exact absurd h (by decide)

theorem digit_not_ws {c : Char} (h : c.isDigit = true) : ws c = false := by
  cases hw : ws c with
  | false => rfl
  | true =>
    exfalso
    have hd : ((c = ' ' ∨ c = '\t') ∨ c = '\x0d') ∨ c = '\n' := by
      simpa [ws, Char.isWhitespace] using hw
    rcases hd with ((h' | h') | h') | h' <;> rw [h'] at h <;> exact absurd h (by decide)

theorem not_mem_subBlank {c : Char} {ds : List Char}
    (hdig : ∀ x ∈ ds, x.isDigit = true) (h1 : c ≠ '.') (h2 : c ≠ '_') (h3 : c ≠ ' ')
    (h4 : c.isDigit = false) : c ∉ ds ++ ['.', '_', ' '] := by
  intro hmem
  rcases List.mem_append.mp hmem with hd | hrest
  · rw [hdig c hd] at h4; exact absurd h4 (by decide)
  · simp only [List.mem_cons, List.mem_singleton] at hrest
    rcases hrest with h | h | h
    · exact h1 h
    · exact h2 h
    · simp at h
      exact h3 h

/-- Tag stripping acts piecewise on the substituted fragment. -/
theorem stripTags_concatSub : ∀ (frag : List Item), (∀ it ∈ frag, wfItem it) →
    stripTags (concatFrag subItem frag) = concatFrag strippedItem frag := by
  intro frag
  induction frag with
  | nil => intro _; rfl
  | cons it l ih =>
    intro hwf
    have hit : wfItem it := hwf it (by simp)
    have hl : ∀ x ∈ l, wfItem x := fun x hx => hwf x (by simp [hx])
    cases it with
    | txt s =>
      obtain ⟨h1, -, -⟩ := hit
      show stripTagsAux false (s ++ concatFrag subItem l) =
        s ++ concatFrag strippedItem l
      rw [stripTagsAux_chunk _ h1]
      exact congrArg _ (ih hl)
    | tagged nm =>
      obtain ⟨-, -, hgt⟩ := hit
      show stripTagsAux false ('<' :: (nm ++ ['>']) ++ concatFrag subItem l) =
        [] ++ concatFrag strippedItem l
      rw [show '<' :: (nm ++ ['>']) ++ concatFrag subItem l =
          '<' :: (nm ++ '>' :: concatFrag subItem l) by simp]
      rw [stripTagsAux_tag _ hgt]
      exact ih hl
    | blank ds ats =>
      obtain ⟨-, hdig, -, -⟩ := hit
      show stripTagsAux false ((ds ++ ['.', '_', ' ']) ++ concatFrag subItem l) =
        (ds ++ ['.', '_', ' ']) ++ concatFrag strippedItem l
      have hni : '<' ∉ ds ++ ['.', '_', ' '] :=
        not_mem_subBlank hdig (by decide) (by decide) (by decide) (by decide)
      rw [stripTagsAux_chunk _ hni]
      exact congrArg _ (ih hl)

theorem count_dropWhile {p : Char → Bool} {c : Char} (l : List Char)
    (hc : p c = false) : (l.dropWhile p).count c = l.count c := by
  conv_rhs => rw [← List.takeWhile_append_dropWhile (p := p) (l := l)]
  rw [List.count_append]
  have h0 : (l.takeWhile p).count c = 0 := by
    rw [List.count_eq_zero]
    intro hmem
    rw [List.mem_takeWhile_imp hmem] at hc
    exact absurd hc (by decide)
  omega

theorem count_trimChars {c : Char} (l : List Char) (hc : ws c = false) :
    (trimChars l).count c = l.count c := by
  unfold trimChars
  rw [List.count_reverse, count_dropWhile _ hc, List.count_reverse, count_dropWhile _ hc]

theorem mem_trimChars {a : Char} {l : List Char} (h : a ∈ trimChars l) : a ∈ l := by
  unfold trimChars at h
  rw [List.mem_reverse] at h
  have h1 := (List.dropWhile_sublist ws).subset h
  rw [List.mem_reverse] at h1
  exact (List.dropWhile_sublist ws).subset h1

theorem infix_dropWhile {p : Char → Bool} {xs l : List Char}
    (hp : ∀ c ∈ xs, p c = false) (hne : xs ≠ []) (h : xs <:+: l) :
    xs <:+: l.dropWhile p := by
  obtain ⟨s, t, hst⟩ := h
  subst hst
  rw [List.append_assoc, List.dropWhile_append]
  by_cases hs : (s.dropWhile p).isEmpty
  · rw [if_pos hs]
    cases xs with
    | nil => exact absurd rfl hne
    | cons x xs' =>
      rw [List.cons_append, List.dropWhile_cons_of_neg (by simp [hp x (by simp)])]
      exact ⟨[], t, by simp⟩
  · rw [if_neg hs]
    exact ⟨s.dropWhile p, t, by simp⟩

theorem infix_trimChars {xs l : List Char}
    (hp : ∀ c ∈ xs, ws c = false) (hne : xs ≠ []) (h : xs <:+: l) :
    xs <:+: trimChars l := by
  have h1 : xs <:+: l.dropWhile ws := infix_dropWhile hp hne h
  have h2 : xs.reverse <:+: (l.dropWhile ws).reverse := List.reverse_infix.mpr h1
  have h3 : xs.reverse <:+: ((l.dropWhile ws).reverse).dropWhile ws :=
    infix_dropWhile (fun c hc => hp c (List.mem_reverse.mp hc))
      (fun hx => hne (by simpa using congrArg List.reverse hx)) h2
  have h4 := List.reverse_infix.mpr h3
  rw [List.reverse_reverse] at h4
  exact h4

theorem concatFrag_append (f : Item → List Char) (a b : List Item) :
    concatFrag f (a ++ b) = concatFrag f a ++ concatFrag f b := by
  induction a with
  | nil => rfl
  | cons it l ih =>
    simp only [List.cons_append, concatFrag, List.append_eq, ih, List.append_assoc]

/-- Number of recognized numbered-input occurrences in a fragment. -/
def numBlanks : List Item → Nat
  | [] => 0
  | .blank _ _ :: l => numBlanks l + 1
  | .txt _ :: l => numBlanks l
  | .tagged _ :: l => numBlanks l

theorem count_us_concatStripped : ∀ (frag : List Item), (∀ it ∈ frag, wfItem it) →
    (concatFrag strippedItem frag).count '_' = numBlanks frag := by
  intro frag
  induction frag with
  | nil => intro _; rfl
  | cons it l ih =>
    intro hwf
    have hit : wfItem it := hwf it (by simp)
    have hl : ∀ x ∈ l, wfItem x := fun x hx => hwf x (by simp [hx])
    cases it with
    | txt s =>
      obtain ⟨-, -, h3⟩ := hit
      show (s ++ concatFrag strippedItem l).count '_' = numBlanks l
      rw [List.count_append, List.count_eq_zero.mpr h3, ih hl]
      omega
    | tagged nm =>
      show ([] ++ concatFrag strippedItem l).count '_' = numBlanks l
      rw [List.nil_append, ih hl]
    | blank ds ats =>
      obtain ⟨-, hdig, -, -⟩ := hit
      show ((ds ++ ['.', '_', ' ']) ++ concatFrag strippedItem l).count '_' = numBlanks l + 1
      rw [List.count_append, List.count_append, ih hl,
        List.count_eq_zero.mpr (fun hmem => digit_ne_us (hdig _ hmem) rfl)]
      have hcv : List.count '_' ['.', '_', ' '] = 1 := by decide
      omega

theorem no_tags_concatStripped : ∀ (frag : List Item), (∀ it ∈ frag, wfItem it) →
    '<' ∉ concatFrag strippedItem frag ∧ '>' ∉ concatFrag strippedItem frag := by
  intro frag
  induction frag with
  | nil => intro _; exact ⟨by simp [concatFrag], by simp [concatFrag]⟩
  | cons it l ih =>
    intro hwf
    have hit : wfItem it := hwf it (by simp)
    have hl := ih (fun x hx => hwf x (by simp [hx]))
    constructor <;> intro hmem <;>
      rcases List.mem_append.mp (by simpa [concatFrag] using hmem) with hh | ht
    · cases it with
      | txt s => exact hit.1 hh
      | tagged nm => simp [strippedItem] at hh
      | blank ds ats =>
        exact not_mem_subBlank hit.2.1 (by decide) (by decide) (by decide) (by decide) hh
    · exact hl.1 ht
    · cases it with
      | txt s => exact hit.2.1 hh
      | tagged nm => simp [strippedItem] at hh
      | blank ds ats =>
        exact not_mem_subBlank hit.2.1 (by decide) (by decide) (by decide) (by decide) hh
    · exact hl.2 ht

/-- C1.  For every well-formed markup fragment with `N` recognized
numbered-input occurrences, `_process_fill_blank` returns text with exactly
`N` blank indicators (underscores), each occurrence contributing its own
number directly followed by `._`, and no `<` or `>` of any markup tag
survives. -/
theorem c1_fill_blank_normalizer (frag : List Item) (hwf : ∀ it ∈ frag, wfItem it) :
    ((process_fill_blank (String.mk (renderFrag frag))).data.count '_' = numBlanks frag) ∧
    (∀ ds ats, Item.blank ds ats ∈ frag →
      (ds ++ ['.', '_']) <:+: (process_fill_blank (String.mk (renderFrag frag))).data) ∧
    '<' ∉ (process_fill_blank (String.mk (renderFrag frag))).data ∧
    '>' ∉ (process_fill_blank (String.mk (renderFrag frag))).data := by
  have hdata : (process_fill_blank (String.mk (renderFrag frag))).data
      = trimChars (concatFrag strippedItem frag) := by
    simp only [process_fill_blank]
    rw [subScan_renderFrag frag hwf, stripTags_concatSub frag hwf]
  refine ⟨?_, ?_, ?_, ?_⟩
  · rw [hdata]
    exact (count_trimChars _ (by decide)).trans (count_us_concatStripped frag hwf)
  · intro ds ats hmem
    rw [hdata]
    obtain ⟨l1, l2, hsplit⟩ := List.append_of_mem hmem
    have hblank : wfItem (Item.blank ds ats) := hwf _ hmem
    have hin : (ds ++ ['.', '_']) <:+: concatFrag strippedItem frag := by
      rw [hsplit, concatFrag_append]
      exact ⟨concatFrag strippedItem l1, ' ' :: concatFrag strippedItem l2,
        by simp [concatFrag, strippedItem]⟩
    refine infix_trimChars ?_ (by simp) hin
    intro c hc
    rcases List.mem_append.mp hc with hd | hr
    · exact digit_not_ws (hblank.2.1 c hd)
    · simp only [List.mem_cons, List.mem_singleton] at hr
      rcases hr with h | h
      · rw [h]; decide
      · simp at h
        rw [h]; decide
  · rw [hdata]
    intro hmem
    exact (no_tags_concatStripped frag hwf).1 (mem_trimChars hmem)
  · rw [hdata]
    intro hmem
    exact (no_tags_concatStripped frag hwf).2 (mem_trimChars hmem)

/-- Concrete fragment used as a C1 witness: text, two numbered blanks, one
bold tag pair. -/
def c1frag : List Item :=
  [Item.txt "Read the passage. ".data,
   Item.blank ['4', '1'] " type=\"text\" class=\"w-20\"".data,
   Item.txt " after ".data,
   Item.tagged ['b'],
   Item.txt "bold".data,
   Item.tagged ['/', 'b'],
   Item.blank ['4', '2'] " type=\"text\"".data]

theorem c1frag_wf : ∀ it ∈ c1frag, wfItem it := by
  intro it hit
  simp only [c1frag, List.mem_cons, List.not_mem_nil, or_false] at hit
  rcases hit with h | h | h | h | h | h | h <;> subst h <;>
    first
      | exact ⟨by decide, by decide, by decide, by decide⟩
      | exact ⟨by decide, by decide, by decide⟩

/-- Witness for C1 at a concrete fragment with two numbered blanks. -/
theorem c1_fill_blank_normalizer_witness :
    ((process_fill_blank (String.mk (renderFrag c1frag))).data.count '_' = numBlanks c1frag) ∧
    (∀ ds ats, Item.blank ds ats ∈ c1frag →
      (ds ++ ['.', '_']) <:+: (process_fill_blank (String.mk (renderFrag c1frag))).data) ∧
    '<' ∉ (process_fill_blank (String.mk (renderFrag c1frag))).data ∧
    '>' ∉ (process_fill_blank (String.mk (renderFrag c1frag))).data :=
  c1_fill_blank_normalizer c1frag c1frag_wf

/-! ### C4: fragments with no recognized occurrence pass through -/

/-- Whether the fill-blank regex matches anywhere in the input. -/
def hasPattern : List Char → Bool
  | [] => false
  | c :: cs => (matchPattern (c :: cs)).isSome || hasPattern cs

theorem subScan_id_of_no_pattern : ∀ {l : List Char}, hasPattern l = false → subScan l = l := by
  intro l
  induction l with
  | nil => intro _; rfl
  | cons c cs ih =>
    intro h
    simp only [hasPattern, Bool.or_eq_false_iff] at h
    have hm : matchPattern (c :: cs) = none :=
      Option.not_isSome_iff_eq_none.mp (by simp [h.1])
    rw [subScan_cons_none hm, ih h.2]

/-- C4.  On a markup fragment in which the recognized numbered-input pattern
occurs nowhere, `_process_fill_blank` returns exactly the tag-stripped
(and stripped) text of the fragment, with no blank indicator inserted. -/
theorem c4_no_pattern_passthrough (html : String) (h : hasPattern html.data = false) :
    process_fill_blank html = stripStr (String.mk (stripTags html.data)) := by
  simp only [process_fill_blank, stripStr, subScan_id_of_no_pattern h]

/-- Witness for C4 at a concrete fragment without occurrences. -/
theorem c4_no_pattern_passthrough_witness :
    hasPattern ("<p>No blanks here.</p>" : String).data = false ∧
    process_fill_blank "<p>No blanks here.</p>" =
      stripStr (String.mk (stripTags ("<p>No blanks here.</p>" : String).data)) :=
  ⟨by decide, c4_no_pattern_passthrough _ (by decide)⟩

/-! ### DOM element model for the extractors -/

mutual

/-- A rendered DOM element: tag name, raw `class` attribute, the element's own
text content, and child elements in document order. -/
inductive Elem where
  | mk (tag : String) (className : String) (ownText : String) (children : ElemList)

/-- Children of an element; mutual with `Elem` so every recursion below is
structural and evaluates by kernel reduction. -/
inductive ElemList where
  | nil
  | cons (e : Elem) (es : ElemList)

end

def Elem.tag : Elem → String
  | .mk t _ _ _ => t

def Elem.className : Elem → String
  | .mk _ c _ _ => c

def Elem.ownText : Elem → String
  | .mk _ _ o _ => o

mutual

/-- Model of Selenium's `element.text`: the element's own text followed by its
children's text, in document order. -/
def Elem.textOf : Elem → String
  | .mk _ _ o ch => o ++ ElemList.textOfAll ch

def ElemList.textOfAll : ElemList → String
  | .nil => ""
  | .cons e es => Elem.textOf e ++ ElemList.textOfAll es

end

mutual

/-- All proper descendants of an element, in document (preorder) order: the
search scope of a `.//…` XPath query or a tag-name lookup. -/
def Elem.desc : Elem → List Elem
  | .mk _ _ _ ch => ElemList.descAll ch

def ElemList.descAll : ElemList → List Elem
  | .nil => []
  | .cons e es => e :: (Elem.desc e ++ ElemList.descAll es)

end

mutual

/-- Model of `element.get_attribute('outerHTML')`. -/
def Elem.outerHTML : Elem → String
  | .mk t c o ch =>
    "<" ++ t ++ (if c = "" then "" else " class=\"" ++ c ++ "\"") ++ ">" ++
      o ++ ElemList.innerAll ch ++ "</" ++ t ++ ">"

def ElemList.innerAll : ElemList → String
  | .nil => ""
  | .cons e es => Elem.outerHTML e ++ ElemList.innerAll es

end

/-- Whether `pat` occurs as a contiguous substring of `l`. -/
def containsSub (pat : List Char) : List Char → Bool
  | [] => pat.isEmpty
  | c :: tl => (dropLit pat (c :: tl)).isSome || containsSub pat tl

/-- XPath `contains(@class, s)`: raw substring test on the class attribute. -/
def hasClass (e : Elem) (s : String) : Bool := containsSub s.data e.className.data

/-- `find_elements` over a predicate: all matching descendants in document
order. -/
def findElements (p : Elem → Bool) (e : Elem) : List Elem := (Elem.desc e).filter p

/-- `find_element` over a predicate: the first matching descendant, or `none`
where Selenium would raise `NoSuchElementException`. -/
def findElement (p : Elem → Bool) (e : Elem) : Option Elem := (findElements p e).head?

/-- `.//div[contains(@class, 'space-y-') and contains(@class, 'text-left')]`. -/
def isParaContainerMain (e : Elem) : Bool :=
  e.tag == "div" && hasClass e "space-y-" && hasClass e "text-left"

/-- `.//div[contains(@class, 'space-y-')]` (the looser fallback selector). -/
def isParaContainerLoose (e : Elem) : Bool :=
  e.tag == "div" && hasClass e "space-y-"

/-- `.//div[contains(@class, 'border-b') and contains(@class, 'pb-')]`. -/
def isParaBlock (e : Elem) : Bool :=
  e.tag == "div" && hasClass e "border-b" && hasClass e "pb-"

def isTagP (e : Elem) : Bool := e.tag == "p"

def isTagInput (e : Elem) : Bool := e.tag == "input"

/-- Text contributed by one paragraph block (source lines 139–158): the first
`p` descendant's stripped text, a `[填空]` marker when the block holds an
`input`, then a newline; a block without `p` raises `NoSuchElementException`,
which the inner handler turns into `continue`. -/
def blockText (block : Elem) : String :=
  match findElement isTagP block with
  | none => ""
  | some pe =>
    let t := stripStr pe.textOf
    if t = "" then ""
    else t ++ (if (findElements isTagInput block).isEmpty then "" else " [填空]") ++ "\n"

/-- Text contributed by one matched sub-container (source lines 119–158):
if it has no `border-b`/`pb-` blocks, its `p` descendants' stripped texts,
one per line; otherwise each block's `blockText`. -/
def paraContainerText (pc : Elem) : String :=
  let blocks := findElements isParaBlock pc
  if blocks.isEmpty then
    (findElements isTagP pc).foldl
      (fun acc pe =>
        let t := stripStr pe.textOf
        if t = "" then acc else acc ++ t ++ "\n") ""
  else
    blocks.foldl (fun acc b => acc ++ blockText b) ""

/-- `_extract_paragraph_container(container, container_name)`: primary selector,
looser fallback selector, empty string when both yield nothing, otherwise a
`【name】` header, the sub-containers' contents, and a final newline. -/
def extract_paragraph_container (container : Elem) (containerName : String) : String :=
  let pcs := findElements isParaContainerMain container
  let pcs := if pcs.isEmpty then findElements isParaContainerLoose container else pcs
  if pcs.isEmpty then ""
  else
    "【" ++ containerName ++ "】\n" ++
      pcs.foldl (fun acc pc => acc ++ paraContainerText pc) "" ++ "\n"

/-- Message of the driver's `NoSuchElementException`, abstracted from the
WebDriver runtime: only its placement inside the labeled failure string
matters to the extractor. -/
def noSuchElementMsg : String := "no such element"

/-- `.//h3[contains(@class, 'mb-4 text-lg font-semibold')]` (module title). -/
def titlePred (e : Elem) : Bool :=
  e.tag == "h3" && hasClass e "mb-4 text-lg font-semibold"

/-- `.//h3[contains(@class, 'mb-4 text-left text-sm text-gray-600')]`. -/
def introPred (e : Elem) : Bool :=
  e.tag == "h3" && hasClass e "mb-4 text-left text-sm text-gray-600"

/-- `.//div[contains(@class, 'mb-6 space-y-4 text-left')]` (content block). -/
def contentPred (e : Elem) : Bool :=
  e.tag == "div" && hasClass e "mb-6 space-y-4 text-left"

/-- `.//div[contains(@class, 'grid') and contains(@class, 'gap-4')]`. -/
def optsGridPred (e : Elem) : Bool :=
  e.tag == "div" && hasClass e "grid" && hasClass e "gap-4"

/-- `.//div[contains(@class, 'flex items-start')]`. -/
def optItemPred (e : Elem) : Bool :=
  e.tag == "div" && hasClass e "flex items-start"

/-- `.//div[contains(@class, 'mb-8') and .//h3[contains(@class, 'mb-4 text-lg
font-semibold') and text()='{module_name}']]`: the module's root container. -/
def moduleRootPred (moduleName : String) (e : Elem) : Bool :=
  e.tag == "div" && hasClass e "mb-8" &&
    (Elem.desc e).any fun h => titlePred h && (h.ownText == moduleName)

/-- The `try` body of `_extract_module` (steps 1–5); `Except.error` carries the
message of the exception that would reach the outer handler.  Steps 4 and 5
have their own inner handlers and cannot raise. -/
def extract_module_core (container : Elem) (moduleName : String) : Except String String :=
  match findElement (moduleRootPred moduleName) container with
  | none => .error noSuchElementMsg
  | some moduleContainer =>
    match findElement titlePred moduleContainer with
    | none => .error noSuchElementMsg
    | some titleElem =>
      let title := titleElem.textOf
      let introText := String.intercalate "\n"
        ((findElements introPred moduleContainer).map Elem.textOf) ++ "\n\n"
      let contentText :=
        match findElement contentPred moduleContainer with
        | some contentContainer =>
          String.intercalate "\n"
            ((findElements isTagP contentContainer).map fun pe =>
              process_fill_blank pe.outerHTML) ++ "\n\n"
        | none => extract_paragraph_container moduleContainer (moduleName ++ "内容")
      let optionsText :=
        match findElement optsGridPred moduleContainer with
        | some optionsContainer =>
          "【选项/词库】\n" ++ String.intercalate "\n"
            ((findElements optItemPred optionsContainer).map Elem.textOf) ++ "\n\n"
        | none => ""
      .ok (title ++ "\n" ++ introText ++ "【正文内容】\n" ++ contentText ++ optionsText)

/-- `_extract_module(container, module_name)` with its fallback handler
(source lines 227–235): on any failure, rerun the generic paragraph-container
extractor on the whole container; keep its output when nonempty with stripped
length above 20, otherwise return the labeled failure string embedding the
error message. -/
def extract_module (container : Elem) (moduleName : String) : String :=
  match extract_module_core container moduleName with
  | .ok s => s
  | .error e =>
    let alternativeContent := extract_paragraph_container container moduleName
    if alternativeContent ≠ "" ∧ 20 < (stripStr alternativeContent).length then
      moduleName ++ "\n" ++ alternativeContent
    else
      "【" ++ moduleName ++ "提取失败：" ++ e ++ "】\n\n"

/-- `_extract_writing(container)`. -/
def extract_writing (c : Elem) : String := extract_module c "Part I Writing"

/-- `_extract_section_a(container)`. -/
def extract_section_a (c : Elem) : String := extract_module c "Section A"

/-- `_extract_section_b(container)`. -/
def extract_section_b (c : Elem) : String := extract_module c "Section B"

/-- `_extract_section_c(container)`. -/
def extract_section_c (c : Elem) : String := extract_module c "Section C"

/-! ### C2: paragraph-container extractor with zero matches -/

/-- Concrete element with no descendants at all. -/
def c2elem : Elem := Elem.mk "div" "root" "" ElemList.nil

/-- C2 counterexample: on a container with zero sub-containers matching either
selector, `_extract_paragraph_container` returns the empty string — not a
designated "not found" marker string. -/
theorem c2_paragraph_container_counterexample :
    extract_paragraph_container c2elem "段落容器" = "" := by rfl

/-- C2 (amended).  When neither the primary nor the looser selector matches
any sub-container, `_extract_paragraph_container` returns the empty string
(and, being total, raises nothing). -/
theorem c2_paragraph_container_empty (container : Elem) (containerName : String)
    (h1 : findElements isParaContainerMain container = [])
    (h2 : findElements isParaContainerLoose container = []) :
    extract_paragraph_container container containerName = "" := by
  simp [extract_paragraph_container, h1, h2]

/-- Witness for the amended C2 at a concrete container. -/
theorem c2_paragraph_container_empty_witness :
    findElements isParaContainerMain c2elem = [] ∧
    findElements isParaContainerLoose c2elem = [] ∧
    extract_paragraph_container c2elem "附加段落内容" = "" :=
  ⟨rfl, rfl, c2_paragraph_container_empty c2elem "附加段落内容" rfl rfl⟩

/-! ### C3 / C10: named-module extractor when the module lookup fails -/

/-- When the module-root lookup fails, `_extract_module` returns the whole-root
fallback extraction (prefixed by the module name) if its stripped length
exceeds 20, and otherwise the labeled failure string embedding the error
message. -/
theorem extract_module_fallback_eq (container : Elem) (moduleName : String)
    (h : findElement (moduleRootPred moduleName) container = none) :
    extract_module container moduleName =
      if 20 < (stripStr (extract_paragraph_container container moduleName)).length then
        moduleName ++ "\n" ++ extract_paragraph_container container moduleName
      else "【" ++ moduleName ++ "提取失败：" ++ noSuchElementMsg ++ "】\n\n" := by
  have hcore : extract_module_core container moduleName = .error noSuchElementMsg := by
    simp only [extract_module_core, h]
  simp only [extract_module, hcore]
  by_cases hgt : 20 < (stripStr (extract_paragraph_container container moduleName)).length
  · have hne : extract_paragraph_container container moduleName ≠ "" := by
      intro h0
      rw [h0] at hgt
      exact absurd hgt (by decide)
    rw [if_pos ⟨hne, hgt⟩, if_pos hgt]
  · rw [if_neg (fun hand => hgt hand.2), if_neg hgt]

/-- Concrete root without any `mb-8` module container but with a rich
`space-y-`/`text-left` paragraph container. -/
def c3para : Elem :=
  Elem.mk "p" "mb-3 font-medium" "This paragraph has well over twenty characters." ElemList.nil

def c3pc : Elem := Elem.mk "div" "space-y-6 text-left" "" (ElemList.cons c3para ElemList.nil)

def c3root : Elem := Elem.mk "div" "rounded-lg bg-white p-6" "" (ElemList.cons c3pc ElemList.nil)

/-- C3 counterexample: on a root with no matching module heading but a rich
paragraph container, `_extract_module` returns the fallback content prefixed
by the module name — a string that is *not* a labeled failure string (the
label `提取失败` does not occur in it). -/
theorem c3_module_missing_counterexample :
    findElement (moduleRootPred "Section A") c3root = none ∧
    extract_module c3root "Section A" =
      "Section A\n【Section A】\nThis paragraph has well over twenty characters.\n\n" ∧
    containsSub "提取失败".data (extract_module c3root "Section A").data = false :=
  ⟨rfl, rfl, rfl⟩

/-- C3 (amended).  When no module heading matches the target title,
`_extract_module` never raises (it is total) and returns a string that always
contains the module name: either the labeled failure string, or — when the
whole-root fallback extraction is rich enough — the module name prefixed to
that fallback content. -/
theorem c3_module_missing_contains_name (container : Elem) (moduleName : String)
    (h : findElement (moduleRootPred moduleName) container = none) :
    moduleName.data <:+: (extract_module container moduleName).data := by
  rw [extract_module_fallback_eq container moduleName h]
  by_cases hgt : 20 < (stripStr (extract_paragraph_container container moduleName)).length
  · rw [if_pos hgt]
    exact ⟨[], ("\n" ++ extract_paragraph_container container moduleName).data, by simp⟩
  · rw [if_neg hgt]
    exact ⟨"【".data, ("提取失败：" ++ noSuchElementMsg ++ "】\n\n").data, by simp⟩

/-- Witness for the amended C3 at a concrete root. -/
theorem c3_module_missing_contains_name_witness :
    findElement (moduleRootPred "Section A") c3root = none ∧
    ("Section A" : String).data <:+: (extract_module c3root "Section A").data :=
  ⟨rfl, c3_module_missing_contains_name c3root "Section A" rfl⟩

/-- Concrete root with no module heading and no paragraph containers, so the
fallback is trivial. -/
def c10elem : Elem := Elem.mk "div" "" "" ElemList.nil

/-- C10.  When the named-module lookup fails, the fallback result is decided by
the fixed threshold: the module name plus the whole-root paragraph-container
extraction if and only if that extraction strips to more than 20 characters,
otherwise the labeled failure string embedding the error description. -/
theorem c10_fallback_threshold (container : Elem) (moduleName : String)
    (h : findElement (moduleRootPred moduleName) container = none) :
    extract_module container moduleName =
      if 20 < (stripStr (extract_paragraph_container container moduleName)).length then
        moduleName ++ "\n" ++ extract_paragraph_container container moduleName
      else "【" ++ moduleName ++ "提取失败：" ++ noSuchElementMsg ++ "】\n\n" :=
  extract_module_fallback_eq container moduleName h

/-- Witness for C10 at a concrete root whose fallback is trivial. -/
theorem c10_fallback_threshold_witness :
    findElement (moduleRootPred "Section B") c10elem = none ∧
    extract_module c10elem "Section B" =
      (if 20 < (stripStr (extract_paragraph_container c10elem "Section B")).length then
        "Section B" ++ "\n" ++ extract_paragraph_container c10elem "Section B"
      else "【" ++ "Section B" ++ "提取失败：" ++ noSuchElementMsg ++ "】\n\n") :=
  ⟨rfl, c10_fallback_threshold c10elem "Section B" rfl⟩

/-! ### C5: the address builder -/

/-- `_generate_url(year, month, set_count)`: the f-string
`f"https://www.hellocet.online/cet4?year={year}&month={month}&setCount={set_count}"`. -/
def generate_url (year month setCount : Int) : String :=
  "https://www.hellocet.online/cet4?year=" ++ toString year ++ "&month=" ++
    toString month ++ "&setCount=" ++ toString setCount

/-- Template parser, modelled on the spec's fixed template
`<site>/cet4?year=<Y>&month=<M>&setCount=<S>`: recover the three interpolated
fields from an address string. -/
def parse_cet4_url (url : String) : Option (String × String × String) :=
  match dropLit "https://www.hellocet.online/cet4?year=".data url.data with
  | none => none
  | some r1 =>
    let y := r1.takeWhile fun c => !(c = '&')
    let r2 := r1.dropWhile fun c => !(c = '&')
    match dropLit "&month=".data r2 with
    | none => none
    | some r3 =>
      let m := r3.takeWhile fun c => !(c = '&')
      let r4 := r3.dropWhile fun c => !(c = '&')
      match dropLit "&setCount=".data r4 with
      | none => none
      | some r5 => some (String.mk y, String.mk m, String.mk r5)

theorem digitChar_isDigit {n : Nat} (h : n < 10) : (Nat.digitChar n).isDigit = true := by
  interval_cases n <;> decide

theorem toDigitsCore_all_digits : ∀ (fuel n : Nat) (ds : List Char),
    (∀ c ∈ ds, c.isDigit = true) → ∀ c ∈ Nat.toDigitsCore 10 fuel n ds, c.isDigit = true := by
  intro fuel
  induction fuel with
  | zero => intro n ds hds; simpa [Nat.toDigitsCore] using hds
  | succ f ih =>
    intro n ds hds c hc
    simp only [Nat.toDigitsCore] at hc
    by_cases h0 : n / 10 = 0
    · rw [if_pos h0] at hc
      rcases List.mem_cons.mp hc with h | h
      · rw [h]; exact digitChar_isDigit (Nat.mod_lt _ (by omega))
      · exact hds c h
    · rw [if_neg h0] at hc
      refine ih (n / 10) _ ?_ c hc
      intro x hx
      rcases List.mem_cons.mp hx with h | h
      · rw [h]; exact digitChar_isDigit (Nat.mod_lt _ (by omega))
      · exact hds x h

theorem natRepr_all_digits (n : Nat) : ∀ c ∈ (Nat.repr n).data, c.isDigit = true := by
  show ∀ c ∈ Nat.toDigitsCore 10 (n + 1) n [], c.isDigit = true
  exact toDigitsCore_all_digits (n + 1) n [] (by simp)

theorem intToString_chars (i : Int) :
    ∀ c ∈ (toString i).data, c.isDigit = true ∨ c = '-' := by
  cases i with
  | ofNat m =>
    intro c hc
    exact Or.inl (natRepr_all_digits m c hc)
  | negSucc m =>
    intro c hc
    have hm : (toString (Int.negSucc m)).data = '-' :: (Nat.repr (m + 1)).data := rfl
    rw [hm] at hc
    rcases List.mem_cons.mp hc with h | h
    · exact Or.inr h
    · exact Or.inl (natRepr_all_digits (m + 1) c h)

theorem intToString_no_amp (i : Int) : ∀ c ∈ (toString i).data, (!(c = '&')) = true := by
  intro c hc
  rcases intToString_chars i c hc with h | h
  · simp only [Bool.not_eq_true', decide_eq_false_iff_not]
    intro he
    rw [he] at h
    exact absurd h (by decide)
  · rw [h]; decide

theorem amp_month_data : ("&month=" : String).data = '&' :: ("month=" : String).data := by
  decide

theorem amp_set_data : ("&setCount=" : String).data = '&' :: ("setCount=" : String).data := by
  decide

/-- C5.  For every integer triple, `_generate_url` deterministically produces
the fixed template with the three values interpolated, each field appearing
exactly once: the template parser recovers exactly the three rendered values.
The builder is a total function, so no input can make it raise. -/
theorem c5_generate_url (year month setCount : Int) :
    generate_url year month setCount =
      "https://www.hellocet.online/cet4?year=" ++ toString year ++ "&month=" ++
        toString month ++ "&setCount=" ++ toString setCount ∧
    parse_cet4_url (generate_url year month setCount) =
      some (toString year, toString month, toString setCount) := by
  refine ⟨rfl, ?_⟩
  have hdata : (generate_url year month setCount).data =
      ("https://www.hellocet.online/cet4?year=" : String).data ++
        ((toString year).data ++ ('&' :: (("month=" : String).data ++
          ((toString month).data ++ ('&' :: (("setCount=" : String).data ++
            (toString setCount).data)))))) := by
    simp [generate_url, amp_month_data, amp_set_data]
  have htw1 := takeWhile_chunk (p := fun c => !(c = '&')) '&'
    (("month=" : String).data ++ ((toString month).data ++ ('&' ::
      (("setCount=" : String).data ++ (toString setCount).data))))
    (intToString_no_amp year) (by decide)
  have htw2 := takeWhile_chunk (p := fun c => !(c = '&')) '&'
    (("setCount=" : String).data ++ (toString setCount).data)
    (intToString_no_amp month) (by decide)
  have h1 : dropLit ("https://www.hellocet.online/cet4?year=" : String).data
      (generate_url year month setCount).data =
      some ((toString year).data ++ ('&' :: (("month=" : String).data ++
        ((toString month).data ++ ('&' :: (("setCount=" : String).data ++
          (toString setCount).data)))))) := by
    rw [hdata]
    exact dropLit_self _ _
  have h2 : dropLit ("&month=" : String).data
      ('&' :: (("month=" : String).data ++ ((toString month).data ++ ('&' ::
        (("setCount=" : String).data ++ (toString setCount).data))))) =
      some ((toString month).data ++ ('&' :: (("setCount=" : String).data ++
        (toString setCount).data))) := by
    rw [amp_month_data, List.cons_append]
    exact dropLit_self _ _
  have h3 : dropLit ("&setCount=" : String).data
      ('&' :: (("setCount=" : String).data ++ (toString setCount).data)) =
      some (toString setCount).data := by
    rw [amp_set_data, List.cons_append]
    exact dropLit_self _ _
  simp only [parse_cet4_url, h1, htw1.1, htw1.2, h2, htw2.1, htw2.2, h3]

/-! ### Orchestrator model (`crawl_single_paper`) -/

/-- Observable external actions of one `crawl_single_paper` run, in order. -/
inductive RunAction where
  | launch
  | navigate (url : String)
  | saveDebug (filename : String)
  | clickAttempt
  | click
  | warnClickFail
  | locateContainer
  | mkdirOut (dir : String)
  | writeFile (path content : String)
  | saveErrorPage (filename : String)
  | quitBrowser
  deriving DecidableEq

/-- Oracle outcomes of the run's external steps: whether the browser launches,
whether the reveal click succeeds, and the located content container (`none`
models the bounded wait timing out). -/
structure Env where
  launchOk : Bool
  clickOk : Bool
  container : Option Elem

/-- Abstract run report: success keyed by output path and content size, or
failure embedding the error message.  Elapsed times and the rounded-KB figure
of the Python report strings are not modelled. -/
inductive Report where
  | success (savePath : String) (size : Nat)
  | failure (msg : String)
  deriving DecidableEq

/-- Modelled message of a browser-launch exception. -/
def launchFailMsg : String := "browser launch failed"

/-- Modelled message of the container-locate `TimeoutException`. -/
def containerTimeoutMsg : String := "timeout: content container not located"

/-- Output directory `CET4真题_通用爬取/{year}年{month}月`. -/
def saveDir (year month : Int) : String :=
  "CET4真题_通用爬取/" ++ toString year ++ "年" ++ toString month ++ "月"

/-- Output file path `{saveDir}/{year}年{month}月-第{set_count}套.txt`. -/
def savePath (year month setCount : Int) : String :=
  saveDir year month ++ "/" ++ toString year ++ "年" ++ toString month ++ "月-第" ++
    toString setCount ++ "套.txt"

/-- The assembled document (source lines 320–324): header line, 60-`=`
separator line, the four module fragments, then the catch-all paragraph sweep
(extracted first, placed last). -/
def fullPaper (c : Elem) (year month setCount : Int) : String :=
  toString year ++ "年" ++ toString month ++ "月大学英语CET4真题（第" ++
    toString setCount ++ "套）\n" ++ String.mk (List.replicate 60 '=') ++ "\n" ++
    extract_writing c ++ extract_section_a c ++ extract_section_b c ++
    extract_section_c c ++ "\n" ++ extract_paragraph_container c "附加段落内容" ++ "\n"

/-- `crawl_single_paper(year, month, set_count)` under oracle `env`: the
report returned to the caller and the ordered trace of external actions.  The
`finally` block appears as the trailing `quitBrowser` on every path on which
the launch succeeded; when the launch itself raises, `driver` is still `None`
and nothing is torn down. -/
def crawl_single_paper (env : Env) (year month setCount : Int) : Report × List RunAction :=
  let url := generate_url year month setCount
  if env.launchOk then
    let t2 := [RunAction.launch, RunAction.navigate url,
        RunAction.saveDebug ("initial_page_" ++ toString year ++ "_" ++ toString month ++
          "_" ++ toString setCount ++ ".html"),
        RunAction.clickAttempt] ++
      (if env.clickOk then [RunAction.click] else [RunAction.warnClickFail]) ++
      [RunAction.saveDebug ("after_click_" ++ toString year ++ "_" ++ toString month ++
          "_" ++ toString setCount ++ ".html"),
        RunAction.locateContainer]
    match env.container with
    | some c =>
      let paper := fullPaper c year month setCount
      let path := savePath year month setCount
      (Report.success path paper.length,
        t2 ++ [RunAction.mkdirOut (saveDir year month), RunAction.writeFile path paper] ++
          [RunAction.quitBrowser])
    | none =>
      (Report.failure containerTimeoutMsg,
        t2 ++ [RunAction.saveErrorPage ("error_page_" ++ toString year ++ "_" ++
          toString month ++ "_" ++ toString setCount ++ ".html")] ++
          [RunAction.quitBrowser])
  else
    (Report.failure launchFailMsg, [])

/-- C6.  On every exit path of a run in which the browser was launched —
success, click failure, container-locate timeout — the last external action
is the browser teardown of the `finally` block. -/
theorem c6_browser_teardown (env : Env) (year month setCount : Int)
    (h : env.launchOk = true) :
    ((crawl_single_paper env year month setCount).2).getLast? =
      some RunAction.quitBrowser := by
  obtain ⟨lo, co, cont⟩ := env
  simp only at h
  subst h
  cases cont <;> cases co <;> rfl

/-- Witness for C6 at a concrete environment (container-locate timeout). -/
theorem c6_browser_teardown_witness :
    (({ launchOk := true, clickOk := true, container := none } : Env).launchOk = true) ∧
    ((crawl_single_paper { launchOk := true, clickOk := true, container := none } 2020 12 1).2).getLast? =
      some RunAction.quitBrowser :=
  ⟨rfl, c6_browser_teardown { launchOk := true, clickOk := true, container := none } 2020 12 1 rfl⟩

/-- C7.  When locating or clicking the reveal element fails, the run logs a
warning, still reaches the container-locate stage, and the rest of the
pipeline produces the same report as a run whose click succeeded. -/
theorem c7_click_failure_resilient (env : Env) (year month setCount : Int)
    (h : env.launchOk = true) (hc : env.clickOk = false) :
    (crawl_single_paper env year month setCount).1 =
      (crawl_single_paper { env with clickOk := true } year month setCount).1 ∧
    RunAction.warnClickFail ∈ (crawl_single_paper env year month setCount).2 ∧
    RunAction.locateContainer ∈ (crawl_single_paper env year month setCount).2 := by
  obtain ⟨lo, co, cont⟩ := env
  simp only at h hc
  subst h
  subst hc
  cases cont <;> simp [crawl_single_paper]

/-- Witness for C7 at a concrete environment with a failing click. -/
theorem c7_click_failure_resilient_witness :
    (({ launchOk := true, clickOk := false, container := some c2elem } : Env).launchOk = true) ∧
    (({ launchOk := true, clickOk := false, container := some c2elem } : Env).clickOk = false) ∧
    ((crawl_single_paper { launchOk := true, clickOk := false, container := some c2elem } 2020 12 1).1 =
      (crawl_single_paper { launchOk := true, clickOk := true, container := some c2elem } 2020 12 1).1 ∧
     RunAction.warnClickFail ∈ (crawl_single_paper { launchOk := true, clickOk := false, container := some c2elem } 2020 12 1).2 ∧
     RunAction.locateContainer ∈ (crawl_single_paper { launchOk := true, clickOk := false, container := some c2elem } 2020 12 1).2) :=
  ⟨rfl, rfl,
    c7_click_failure_resilient { launchOk := true, clickOk := false, container := some c2elem } 2020 12 1 rfl rfl⟩

/-- C8.  On every successful run, the (unique) written document is the
concatenation, in this fixed order, of the header line, the separator, the
writing fragment, Sections A, B, C, and finally the catch-all paragraph
sweep. -/
theorem c8_output_order (env : Env) (year month setCount : Int) (c : Elem)
    (h : env.launchOk = true) (hc : env.container = some c) :
    RunAction.writeFile (savePath year month setCount)
        (toString year ++ "年" ++ toString month ++ "月大学英语CET4真题（第" ++
          toString setCount ++ "套）\n" ++ String.mk (List.replicate 60 '=') ++ "\n" ++
          extract_writing c ++ extract_section_a c ++ extract_section_b c ++
          extract_section_c c ++ "\n" ++
          extract_paragraph_container c "附加段落内容" ++ "\n")
      ∈ (crawl_single_paper env year month setCount).2 ∧
    (∀ p' c', RunAction.writeFile p' c' ∈ (crawl_single_paper env year month setCount).2 →
      p' = savePath year month setCount ∧ c' = fullPaper c year month setCount) := by
  obtain ⟨lo, co, cont⟩ := env
  simp only at h hc
  subst h
  subst hc
  constructor
  · cases co <;> simp [crawl_single_paper, fullPaper]
  · intro p' c' hmem
    cases co <;> simpa [crawl_single_paper] using hmem

/-- Witness for C8 at a concrete successful environment. -/
theorem c8_output_order_witness :
    (({ launchOk := true, clickOk := true, container := some c2elem } : Env).launchOk = true) ∧
    (({ launchOk := true, clickOk := true, container := some c2elem } : Env).container = some c2elem) ∧
    (RunAction.writeFile (savePath 2020 12 1)
        ((2020 : Int).repr ++ "年" ++ (12 : Int).repr ++ "月大学英语CET4真题（第" ++
          (1 : Int).repr ++ "套）\n" ++ String.mk (List.replicate 60 '=') ++ "\n" ++
          extract_writing c2elem ++ extract_section_a c2elem ++ extract_section_b c2elem ++
          extract_section_c c2elem ++ "\n" ++
          extract_paragraph_container c2elem "附加段落内容" ++ "\n")
      ∈ (crawl_single_paper { launchOk := true, clickOk := true, container := some c2elem } 2020 12 1).2) :=
  ⟨rfl, rfl,
    (c8_output_order { launchOk := true, clickOk := true, container := some c2elem }
      2020 12 1 c2elem rfl rfl).1⟩

/-- File-system effect of a trace: `writeFile` replaces the full content at
its path (the run opens the file with mode `"w"`); other actions leave the
file system unchanged. -/
def applyRunActions (fs : String → Option String) : List RunAction → (String → Option String)
  | [] => fs
  | RunAction.writeFile p c :: tr =>
    applyRunActions (fun q => if q = p then some c else fs q) tr
  | RunAction.launch :: tr => applyRunActions fs tr
  | RunAction.navigate _ :: tr => applyRunActions fs tr
  | RunAction.saveDebug _ :: tr => applyRunActions fs tr
  | RunAction.clickAttempt :: tr => applyRunActions fs tr
  | RunAction.click :: tr => applyRunActions fs tr
  | RunAction.warnClickFail :: tr => applyRunActions fs tr
  | RunAction.locateContainer :: tr => applyRunActions fs tr
  | RunAction.mkdirOut _ :: tr => applyRunActions fs tr
  | RunAction.saveErrorPage _ :: tr => applyRunActions fs tr
  | RunAction.quitBrowser :: tr => applyRunActions fs tr

/-- C9.  The output path is a function of exactly (year, month, set index);
re-running with identical parameters overwrites the file with the second
run's fully formed document — no append, no error. -/
theorem c9_idempotent_overwrite (env1 env2 : Env) (year month setCount : Int)
    (c1 c2 : Elem) (fs : String → Option String)
    (h1 : env1.launchOk = true) (hc1 : env1.container = some c1)
    (h2 : env2.launchOk = true) (hc2 : env2.container = some c2) :
    applyRunActions
        (applyRunActions fs (crawl_single_paper env1 year month setCount).2)
        (crawl_single_paper env2 year month setCount).2
        (savePath year month setCount) =
      some (fullPaper c2 year month setCount) := by
  obtain ⟨lo1, co1, cont1⟩ := env1
  obtain ⟨lo2, co2, cont2⟩ := env2
  simp only at h1 hc1 h2 hc2
  subst h1
  subst hc1
  subst h2
  subst hc2
  cases co1 <;> cases co2 <;> simp [crawl_single_paper, applyRunActions]

/-- Witness for C9 at concrete environments over an empty file system. -/
theorem c9_idempotent_overwrite_witness :
    (({ launchOk := true, clickOk := true, container := some c2elem } : Env).launchOk = true) ∧
    applyRunActions
        (applyRunActions (fun _ => none)
          (crawl_single_paper { launchOk := true, clickOk := false, container := some c3root } 2020 12 1).2)
        (crawl_single_paper { launchOk := true, clickOk := true, container := some c2elem } 2020 12 1).2
        (savePath 2020 12 1) =
      some (fullPaper c2elem 2020 12 1) :=
  ⟨rfl, c9_idempotent_overwrite
    { launchOk := true, clickOk := false, container := some c3root }
    { launchOk := true, clickOk := true, container := some c2elem }
    2020 12 1 c3root c2elem (fun _ => none) rfl rfl rfl rfl⟩
